import Mathlib

/-!
Verification development for the MK11 UE3 asset manager.

The Python source is embedded shallowly: byte buffers become `List Nat`
(each element a byte value), cursor-based reads become explicit
position-passing functions returning `Except Err (α × Nat)`, and every
fatal Python exception becomes an `Err` constructor.  Struct records
(`ctypes.Structure` subclasses with `_pack_ = 1`) become Lean structures
whose fields carry `Nat` (unsigned) or `Int` (signed `c_int32`) values.
-/

namespace MK11

/-- Fatal error kinds.  Each constructor corresponds to one `raise` site
(or ctypes read failure) in the Python source. -/
inductive Err where
  /-- `from_buffer_copy` past the end of the mmap raises `ValueError`. -/
  | eof
  /-- `CompressionType(flag)` on a value that is not an enum member raises `ValueError`. -/
  | invalidCompressionFlag
  /-- `OodleV5.decompress` raises `RuntimeError` when the primitive reports `result <= 0`. -/
  | decompressionFailed
  /-- list indexing out of range raises `IndexError`. -/
  | indexError
  /-- the two `NotImplementedError` raises in `validate_filetable_table_entries`. -/
  | malformedExternalEntry
  /-- `validate_psf_with_extra`: zipped pair with differing `compressed_offset`. -/
  | psfExtraCompressedMismatch (idx : Nat)
  /-- `validate_psf_with_extra`: `psf_tables has extra entries not matched in packages_extra`. -/
  | psfExtraPsfLonger
  /-- `validate_psf_with_extra`: `packages_extra has extra entries not matched in psf_tables`. -/
  | psfExtraPkgLonger
  /-- `UProperty._fix_property_size` raises `ValueError` for a zero-sized non-Bool property. -/
  | zeroSizedProperty
  deriving DecidableEq, Repr

/-! ### Byte cursor (`Struct.read_buffer` over an mmap)

`Struct.read_buffer(file_handle, read_type)` copies `sizeof(read_type)`
bytes at the current position and advances the position.  Reading past
the end of the buffer fails (`Err.eof`).  Multi-byte integers are
little-endian (`_pack_ = 1`, x86 ctypes layout). -/

/-- Read `n` raw bytes at `pos`; returns the bytes and the new position. -/
def readBytes (data : List Nat) (pos n : Nat) : Except Err (List Nat × Nat) :=
  if pos + n ≤ data.length then .ok ((data.drop pos).take n, pos + n) else .error .eof

/-- Little-endian value of a byte list (first byte is least significant). -/
def lePackValue (bs : List Nat) : Nat :=
  bs.foldr (fun b acc => b + 256 * acc) 0

/-- Read an `n`-byte little-endian unsigned integer. -/
def readUInt (data : List Nat) (pos n : Nat) : Except Err (Nat × Nat) := do
  let (bs, p) ← readBytes data pos n
  .ok (lePackValue bs, p)

/-- Little-endian encoding of `v` into `n` bytes (`int.to_bytes(n, "little")`;
Python raises `OverflowError` when `v ≥ 256^n`, so callers only rely on
this for `v < 256^n`). -/
def toBytesLE : Nat → Nat → List Nat
  | 0, _ => []
  | n + 1, v => (v % 256) :: toBytesLE n (v / 256)

/-! ### File-name section (claim C10)

`MK11UE3Asset._MidwayBuilder._build_filename_section` writes
`(len(file_name)+1).to_bytes(4, "little") + file_name.encode("ascii") + b"\x00"`.

`MK11Archive.parse_file_name` reads a `c_uint32` length then a
`c_char * length` array; `Struct.read_buffer` returns the ctypes array's
`.value`, which truncates at the first NUL byte. -/

/-- The midway builder's file-name section: u32 of `length+1`, the name
bytes, one NUL terminator. -/
def buildFilenameSection (name : List Nat) : List Nat :=
  toBytesLE 4 (name.length + 1) ++ name ++ [0]

/-- `MK11Archive.parse_file_name`: u32 length, then that many `c_char`
bytes; the ctypes `.value` stops at the first NUL. -/
def parseFileName (data : List Nat) (pos : Nat) : Except Err (List Nat × Nat) := do
  let (len, p) ← readUInt data pos 4
  let (raw, p2) ← readBytes data p len
  .ok (raw.takeWhile (fun b => b != 0), p2)

/-! ### Property size rule (claim C7)

`UProperty.read` reads a `c_uint64` size; when it is zero it calls
`cls._fix_property_size()`, which returns 4 only when `cls` is
`BoolProperty` and raises `ValueError` otherwise.  `cls` is always one of
the eleven classes registered in `PropertyMap` (any other type tag fails
earlier in `parse_once`). -/

/-- The eleven property classes registered in `PropertyMap`. -/
inductive PropType where
  | strP | intP | floatP | boolP | structP | arrayP
  | enumP | dwordP | qwordP | mapP | nameP
  deriving DecidableEq, Repr

/-- `UProperty._fix_property_size`: 4 for `BoolProperty`, otherwise a
`ValueError` (the spec's `ZeroSizedProperty`). -/
def fixPropertySize (t : PropType) : Except Err Nat :=
  if t = .boolP then .ok 4 else .error .zeroSizedProperty

/-- The size-reading prefix of `UProperty.read`: read a u64
`property_size`; if it is zero apply `_fix_property_size`. -/
def readPropertySize (t : PropType) (data : List Nat) (pos : Nat) :
    Except Err (Nat × Nat) := do
  let (sz, p) ← readUInt data pos 8
  if sz = 0 then
    let sz2 ← fixPropertySize t
    .ok (sz2, p)
  else
    .ok (sz, p)

/-! ### Reference resolver (claim C4)

`MK11TableEntry.resolve_object`: `0` yields a fresh `MK11NoneTableEntry`;
`v < 0` yields `import_table[-(v+1)]`; `v > 0` yields
`export_table[v-1]`.  Python list indexing out of range raises
`IndexError` (the transformed indices are never negative, so no Python
negative-index wrap-around occurs). -/

/-- Result of `resolve_object`: the None sentinel, an import-table entry,
or an export-table entry. -/
inductive Resolved (α β : Type) where
  | noneEntry
  | imported (e : α)
  | exported (e : β)
  deriving DecidableEq, Repr

/-- `MK11TableEntry.resolve_object`. -/
def resolveObject (value : Int) (importTable : List α) (exportTable : List β) :
    Except Err (Resolved α β) :=
  if value = 0 then .ok .noneEntry
  else if value < 0 then
    match importTable.get? (-(value + 1)).toNat with
    | some e => .ok (.imported e)
    | none => .error .indexError
  else
    match exportTable.get? (value - 1).toNat with
    | some e => .ok (.exported e)
    | none => .error .indexError

/-! ### External table entry classification (claim C5)

`MK11Archive.validate_filetable_table_entries` classifies each entry.
The branch order in the source is: `c_off == d_off` first (psf), then
`c_off == neg or c_size == neg` (fatal when `c_off != c_size`, else
bulk), then the final `NotImplementedError`.  The `logging` warnings in
those branches have no effect on the result and are not modelled. -/

/-- Sixty-four-bit `-1` (`-1 & 0xFFFFFFFFFFFFFFFF`). -/
def NEG : Nat := 0xFFFFFFFFFFFFFFFF

/-- `MK11ExternalTableEntry` (four `c_uint64` fields, in source order). -/
structure ExternalTableEntry where
  decompressed_size : Nat
  compressed_size : Nat
  decompressed_offset : Nat
  compressed_offset : Nat
  deriving DecidableEq, Repr

/-- Derived `location` tag of an external table entry. -/
inductive Location where
  | psf | bulk
  deriving DecidableEq, Repr

/-- Members of the `CompressionType` IntEnum. -/
inductive CompressionType where
  | noneC | zlib | lzo | lzx | pfs | ps4 | xbx | oodle
  deriving DecidableEq, Repr

/-- `CompressionType(flag)`: `some` member for a defined enum value,
`none` (a `ValueError` at the call sites) otherwise. -/
def compressionTypeOfFlag (v : Nat) : Option CompressionType :=
  if v = 0x0000 then some .noneC
  else if v = 0x0001 then some .zlib
  else if v = 0x0002 then some .lzo
  else if v = 0x0004 then some .lzx
  else if v = 0x0008 then some .pfs
  else if v = 0x0010 then some .ps4
  else if v = 0x0040 then some .xbx
  else if v = 0x0100 then some .oodle
  else none

/-- The per-entry body of `validate_filetable_table_entries`. -/
def validateFiletableEntry (e : ExternalTableEntry) : Except Err Location :=
  if e.compressed_offset = e.decompressed_offset then .ok .psf
  else if e.compressed_offset = NEG ∨ e.compressed_size = NEG then
    if e.compressed_offset ≠ e.compressed_size then .error .malformedExternalEntry
    else .ok .bulk
  else .error .malformedExternalEntry

/-- `validate_filetable_table_entries`: converts the table's compression
flag through `CompressionType` (a `ValueError` for undefined values),
then classifies every entry in order. -/
def validateFiletableTableEntries (compressionFlag : Nat)
    (entries : List ExternalTableEntry) : Except Err (List Location) :=
  match compressionTypeOfFlag compressionFlag with
  | none => .error .invalidCompressionFlag
  | some _ => entries.mapM validateFiletableEntry

/-! ### Midway summary validation (claim C2)

`MidwayAsset.parse_summary` parses the header record, converts the
compression flag through `CompressionType` (which raises `ValueError`
for undefined values), reads the two package counts, skips 0x18 bytes,
and then calls `self.validate_file()` — discarding its Boolean result.
`validate_file` logs an error and returns `False` on the first failing
check; it never raises.  The embedding takes the already-decoded header
record and package counts (the fixed-layout byte decode is routine) and
keeps the control flow of `parse_summary` exactly. -/

/-- `MK11TableMeta`: entry count and offset. -/
structure TableMeta where
  entries : Nat
  offset : Nat
  deriving DecidableEq, Repr

/-- `MK11AssetHeader` (the file summary record).  Fixed-width byte
arrays (`c_char * 4`, the GUID) are byte lists. -/
structure AssetHeader where
  magic : Nat
  file_version : Nat
  licensee_version : Nat
  exports_location : Nat
  shader_version : Nat
  engine_version : Nat
  midway_team_four_cc : List Nat
  midway_team_engine_version : Nat
  cook_version : Nat
  main_package : List Nat
  package_flags : Nat
  name_table : TableMeta
  export_table : TableMeta
  import_table : TableMeta
  bulk_data_offset : Nat
  guid : List Nat
  compression_flag : Nat
  deriving DecidableEq, Repr

/-- The file magic `0x9E2A83C1`. -/
def FILE_MAGIC : Nat := 0x9E2A83C1

/-- The bytes of `b"MK11"`. -/
def MK11_FOUR_CC : List Nat := [0x4D, 0x4B, 0x31, 0x31]

/-- The bytes of `b"MAIN"`. -/
def MAIN_PACKAGE : List Nat := [0x4D, 0x41, 0x49, 0x4E]

/-- `MidwayAsset.validate_file`: returns `False` (after logging) at the
first failing check, `True` when all pass.  It raises nothing. -/
def validateFile (h : AssetHeader) (compressionMode : CompressionType)
    (packagesCount packagesExtraCount : Nat) : Bool :=
  if h.magic ≠ FILE_MAGIC then false
  else if h.midway_team_four_cc ≠ MK11_FOUR_CC then false
  else if h.main_package ≠ MAIN_PACKAGE then false
  else if compressionMode ≠ CompressionType.noneC then false
  else if packagesCount ≠ 0 then false
  else if packagesExtraCount ≠ 0 then false
  else true

/-- `MidwayAsset.parse_summary`: builds the compression mode (the only
raising step), then calls `validate_file` and discards its result — the
parse continues regardless of the outcome. -/
def parseSummary (h : AssetHeader) (packagesCount packagesExtraCount : Nat) :
    Except Err Unit :=
  match compressionTypeOfFlag h.compression_flag with
  | none => .error .invalidCompressionFlag
  | some cm =>
    let _ := validateFile h cm packagesCount packagesExtraCount
    .ok ()

/-! ### Block decompression (claim C1)

`MK11Archive.parse_blocks_chunk` reads 16-byte chunk headers while the
running total of their `compressed_size` fields is below the block's
`compressed_size`, then reads each chunk's payload.
`MK11Archive.decompress_block` feeds each payload to
`compressor.decompress(chunk_data, chunk_header.decompressed_size)` and
concatenates the results; the concatenation is returned as-is.  Every
loop iteration of the header phase either consumes 16 bytes of the
buffer or fails with `Err.eof`, so fuel `data.length + 1` is always
sufficient; the fuel-exhausted branch is unreachable at the wrapper. -/

/-- `MK11BlockHeader` (magic, padding, chunk_size, compressed_size,
decompressed_size). -/
structure BlockHeader where
  magic : Nat
  padding : Nat
  chunk_size : Nat
  compressed_size : Nat
  decompressed_size : Nat
  deriving DecidableEq, Repr

/-- `MK11BlockChunkHeader` (compressed_size, decompressed_size). -/
structure ChunkHeader where
  compressed_size : Nat
  decompressed_size : Nat
  deriving DecidableEq, Repr

/-- Read one `MK11BlockChunkHeader` (two little-endian u64 fields). -/
def readChunkHeader (data : List Nat) (pos : Nat) :
    Except Err (ChunkHeader × Nat) := do
  let (cs, p) ← readUInt data pos 8
  let (ds, p2) ← readUInt data p 8
  .ok (⟨cs, ds⟩, p2)

/-- The header-collection loop of `parse_blocks_chunk`, with explicit
fuel (each pass consumes 16 bytes or fails, so the `0` case is
unreachable for fuel `data.length + 1`). -/
def parseChunkHeadersAux (data : List Nat) :
    Nat → Nat → Nat → Nat → Except Err (List ChunkHeader × Nat)
  | 0, _, _, _ => .error .eof
  | fuel + 1, pos, totalRead, target =>
    if totalRead < target then do
      let (h, p) ← readChunkHeader data pos
      let (hs, p2) ← parseChunkHeadersAux data fuel p (totalRead + h.compressed_size) target
      .ok (h :: hs, p2)
    else .ok ([], pos)

/-- Chunk-header phase of `parse_blocks_chunk`: collect headers until
their summed `compressed_size` reaches the block's `compressed_size`. -/
def parseChunkHeaders (data : List Nat) (pos target : Nat) :
    Except Err (List ChunkHeader × Nat) :=
  parseChunkHeadersAux data (data.length + 1) pos 0 target

/-- Payload phase of `parse_blocks_chunk` fused with the loop of
`decompress_block`: for each header in order, read `compressed_size`
bytes and decompress with `expected = decompressed_size`, concatenating
the outputs.  No comparison with any block-level size is made. -/
def decompressChunks (comp : List Nat → Nat → Except Err (List Nat))
    (data : List Nat) : List ChunkHeader → Nat → Except Err (List Nat × Nat)
  | [], pos => .ok ([], pos)
  | h :: hs, pos => do
    let (chunk, p) ← readBytes data pos h.compressed_size
    let out ← comp chunk h.decompressed_size
    let (rest, p2) ← decompressChunks comp data hs p
    .ok (out ++ rest, p2)

/-- `MK11Archive.decompress_block`: parse the chunk headers, decompress
each chunk, return the concatenation.  The block's `decompressed_size`
field is never consulted. -/
def decompressBlock (comp : List Nat → Nat → Except Err (List Nat))
    (block : BlockHeader) (data : List Nat) (pos : Nat) :
    Except Err (List Nat × Nat) := do
  let (hs, p) ← parseChunkHeaders data pos block.compressed_size
  decompressChunks comp data hs p

/-- `OodleV5.decompress` around the native primitive: the primitive
returns its status `result` and the destination buffer; the adapter
raises only when `result <= 0` and otherwise returns `dst.raw[:result]`
— with no check that `result` equals the expected output size. -/
def oodleDecompress (prim : List Nat → Nat → Int × List Nat)
    (chunk : List Nat) (outputSize : Nat) : Except Err (List Nat) :=
  let r := prim chunk outputSize
  if r.1 ≤ 0 then .error .decompressionFailed
  else .ok (r.2.take r.1.toNat)

/-! ### Export coverage validator (claim C3)

`MidwayAsset.validate_exports` (the `mk_utils` version) flattens
`(object_offset, object_size, full_name)` triples, sorts them (Python
tuple order: offset, then size, then name), and sweeps once tracking the
active range `(prev_off, prev_end, prev_name)`.  `end` is computed as
`getattr(self.header, "bulk_location", self.mm.size())`; `MK11AssetHeader`
defines no attribute named `bulk_location` (its field is
`bulk_data_offset`, and no code ever adds a `bulk_location` member), so
the `getattr` default — the file size — is always taken. -/

/-- Validation reports of `validate_exports`; constructors carry the data
interpolated into each message string. -/
inductive ExportErr where
  | outOfBounds (name : String) (off start endE : Nat)
  | overExtent (name : String) (size off endE : Nat)
  | overlap (name : String) (lo hi : Nat) (prevName : Option String) (prevOff prevEnd : Nat)
  | gap (gapStart gapEnd : Nat) (name : String)
  | endsEarlyBulk (prevEnd firstBulk : Nat)
  | endsEarly (prevEnd endE : Nat)
  deriving DecidableEq, Repr

/-- Python tuple ordering on `(offset, size, full_name)` triples. -/
def exportKeyLE (a b : Nat × Nat × String) : Prop :=
  a.1 < b.1 ∨ (a.1 = b.1 ∧ (a.2.1 < b.2.1 ∨ (a.2.1 = b.2.1 ∧ a.2.2 ≤ b.2.2)))

instance : DecidableRel exportKeyLE := fun a b => by
  unfold exportKeyLE
  exact inferInstance

/-- The sweep loop of `validate_exports`: returns the reports in emission
order together with the final `(prev_off, prev_end, prev_name)` state. -/
def validateExportsGo (start endE : Nat) :
    Nat × Nat × Option String → List (Nat × Nat × String) →
    List ExportErr × (Nat × Nat × Option String)
  | st, [] => ([], st)
  | (prevOff, prevEnd, prevName), (off, sz, name) :: rest =>
    if ¬ (start ≤ off ∧ off < endE) then
      let r := validateExportsGo start endE (prevOff, prevEnd, prevName) rest
      (.outOfBounds name off start endE :: r.1, r.2)
    else if off + sz > endE then
      let r := validateExportsGo start endE (prevOff, prevEnd, prevName) rest
      (.overExtent name sz off endE :: r.1, r.2)
    else
      let head : List ExportErr :=
        if off < prevEnd then [.overlap name off (off + sz) prevName prevOff prevEnd]
        else if off > prevEnd then [.gap prevEnd off name]
        else []
      let st1 := if off + sz > prevEnd then (off, off + sz, some name)
                 else (prevOff, prevEnd, prevName)
      let r := validateExportsGo start endE st1 rest
      (head ++ r.1, r.2)

/-- `MidwayAsset.validate_exports`.  `bulkTables` holds, per bulk table,
the `decompressed_offset` of each of its entries; the early-finish branch
indexes `bulk_tables[0].entries[0]`, which raises `IndexError` when the
first table has no entries. -/
def validateExports (hdr : AssetHeader) (mmSize : Nat)
    (exports : List (Nat × Nat × String)) (skipBulk : Bool)
    (bulkTables : List (List Nat)) : Except Err (List ExportErr) :=
  if exports.isEmpty then .ok []
  else
    let start := hdr.exports_location
    let endE := mmSize
    let sortedE := exports.insertionSort exportKeyLE
    let r := validateExportsGo start endE (start, start, none) sortedE
    let prevEnd := r.2.2.1
    if prevEnd < endE then
      if ¬ skipBulk ∧ ¬ bulkTables.isEmpty then
        match bulkTables with
        | [] => .ok r.1
        | t0 :: _ =>
          match t0.head? with
          | none => .error .indexError
          | some firstBulk =>
            if firstBulk ≠ prevEnd then .ok (r.1 ++ [.endsEarlyBulk prevEnd firstBulk])
            else .ok r.1
      else .ok (r.1 ++ [.endsEarly prevEnd endE])
    else .ok r.1

/-! ### PSF / extra-package cross-check (claim C6)

`MK11UE3Asset.validate_psf_with_extra` zips two generators (PSF entries
flattened group-then-row, extra-package sub-package entries flattened
the same way).  CPython `zip` pulls from the left iterator first, so
when the PSF side is longer its next element is consumed by the final
probe of `zip`; the trailing `next(psf_iter)` check therefore only fires
when the PSF side has at least two unmatched entries.  A
`decompressed_offset` mismatch is a logged warning (returned here as the
list of mismatching indices on success). -/

/-- `MK11AssetSubPackage` (the extra-package sub-entries). -/
structure PkgSubEntry where
  decompressed_offset : Nat
  decompressed_size : Nat
  compressed_offset : Nat
  compressed_size : Nat
  deriving DecidableEq, Repr

/-- The zip loop plus the two trailing exhaustion probes of
`validate_psf_with_extra`, operating on the flattened sequences.  The
`p :: ps, []` case records that `zip` already consumed `p` before
discovering the package side was exhausted. -/
def validatePsfExtraGo (idx : Nat) :
    List ExternalTableEntry → List PkgSubEntry → Except Err (List Nat)
  | p :: ps, q :: qs =>
    if p.compressed_offset ≠ q.compressed_offset then
      .error (.psfExtraCompressedMismatch idx)
    else do
      let ws ← validatePsfExtraGo (idx + 1) ps qs
      .ok (if p.decompressed_offset ≠ q.decompressed_offset then idx :: ws else ws)
  | [], [] => .ok []
  | [], _ :: _ => .error .psfExtraPkgLonger
  | _ :: ps, [] => if ps.isEmpty then .ok [] else .error .psfExtraPsfLonger

/-- `MK11UE3Asset.validate_psf_with_extra`: flatten both table groups in
group-then-row order and run the zip check. -/
def validatePsfWithExtra (psfTables : List (List ExternalTableEntry))
    (packagesExtra : List (List PkgSubEntry)) : Except Err (List Nat) :=
  validatePsfExtraGo 0 psfTables.flatten packagesExtra.flatten

/-! ### Path walks over resolved tables (claim C8)

`MK11ExportTableEntry.path` and `MK11ImportTableEntry.path` walk the
resolved object graph: from an export the walk follows `class_outer`
(set by `resolve` from `object_outer_class`), from an import it follows
`package` (set from `import_class_package`), until it reaches a
`MK11NoneTableEntry` (the only falsy entry).  The resolved references
are exactly the table entries selected by `resolve_object`, so the walk
is the index-level step below.  The Python loop has no cycle guard. -/

/-- `MK11ExportTableEntry` (field order and signedness as in `_fields_`). -/
structure ExportTableEntry where
  object_class : Int
  object_outer_class : Int
  object_name : Int
  object_name_suffix : Nat
  object_super : Int
  object_flags : Nat
  object_guid : List Nat
  object_main_package : Nat
  unk_1 : Nat
  object_size : Nat
  object_offset : Nat
  unk_2 : Nat
  unk_3 : Nat
  deriving DecidableEq, Repr

/-- `MK11ImportTableEntry`. -/
structure ImportTableEntry where
  import_class_package : Int
  import_name : Int
  import_name_suffix : Int
  import_outer_class : Int
  object_name : Int
  deriving DecidableEq, Repr

/-- Index-level `resolve_object`: `none` is the sentinel, `Sum.inl` an
export index, `Sum.inr` an import index; out-of-range is `IndexError`. -/
def decodeRef (ne ni : Nat) (v : Int) : Except Err (Option (Fin ne ⊕ Fin ni)) :=
  if v = 0 then .ok none
  else if v < 0 then
    if h : (-(v + 1)).toNat < ni then .ok (some (Sum.inr ⟨(-(v + 1)).toNat, h⟩))
    else .error .indexError
  else
    if h : (v - 1).toNat < ne then .ok (some (Sum.inl ⟨(v - 1).toNat, h⟩))
    else .error .indexError

/-- One iteration of the `while super_:` walk: an export yields its
`class_outer` reference, an import its `package` reference; the sentinel
is absorbing (the loop has already stopped). -/
def walkStep (exports : List ExportTableEntry) (imports : List ImportTableEntry) :
    Option (Fin exports.length ⊕ Fin imports.length) →
    Except Err (Option (Fin exports.length ⊕ Fin imports.length))
  | none => .ok none
  | some (Sum.inl k) => decodeRef _ _ (exports.get k).object_outer_class
  | some (Sum.inr k) => decodeRef _ _ (imports.get k).import_class_package

/-- `k`-fold iteration of `walkStep`. -/
def walkN (exports : List ExportTableEntry) (imports : List ImportTableEntry) :
    Nat → Option (Fin exports.length ⊕ Fin imports.length) →
    Except Err (Option (Fin exports.length ⊕ Fin imports.length))
  | 0, r => .ok r
  | k + 1, r => do
    let r2 ← walkStep exports imports r
    walkN exports imports k r2

/-- The `path` loop with explicit fuel: each loop iteration appends the
current entry's resolved `name` and steps; reaching the sentinel returns
the collected names in walk order (reversed, as `path[::-1]`).  `ok none`
means the fuel ran out with the loop still running. -/
def pathAux (exports : List ExportTableEntry) (imports : List ImportTableEntry)
    (nameE : Fin exports.length → String) (nameI : Fin imports.length → String) :
    Nat → Option (Fin exports.length ⊕ Fin imports.length) → List String →
    Except Err (Option (List String))
  | 0, _, _ => .ok none
  | fuel + 1, r, acc =>
    match r with
    | none => .ok (some acc.reverse)
    | some s => do
      let nm := match s with | Sum.inl k => nameE k | Sum.inr k => nameI k
      let r2 ← walkStep exports imports (some s)
      pathAux exports imports nameE nameI fuel r2 (nm :: acc)

/-! ### Unknown-array-name warnings (claim C9)

`ue3_properties.py` declares `warned_classes = set()` at module scope.
`ArrayProperty.read_data` consults and mutates it: an array property
name outside the three special cases and the known-struct whitelist is
warned about, and added to the set, only when not already present.  The
set is threaded here as explicit state: within one Python process the
same set instance is shared by every decode run. -/

/-- The whitelisted array property names that decode as struct arrays
without a warning. -/
def knownArrayStructNames : List String :=
  ["mUnlockPages", "mUnlocks", "mItems", "mAudioMapping",
   "Characters", "Sockets", "DefaultItems", "DefaultCharacterLoadouts",
   "States", "Challenges", "Attributes", "Slots", "ItemSequences",
   "Items", "Parameters", "ItemPrerequisites", "VisualAssets",
   "PlayerStatChallenges"]

/-- The branch structure of `ArrayProperty.read_data` that touches
`warned_classes`: returns the updated set and whether a warning was
logged for this property name. -/
def arrayElementWarn (warned : List String) (keyName : String) :
    List String × Bool :=
  if keyName = "mUnlockPagesSentForOnline" then (warned, false)
  else if keyName = "mUnlockedByDefault" ∨ keyName = "mUnlockedForDev" then (warned, false)
  else if keyName ∉ knownArrayStructNames ∧ keyName ∉ warned then
    (keyName :: warned, true)
  else (warned, false)

/-- A decode run, reduced to the array property names it encounters in
order: threads `warned_classes` and collects the names warned about. -/
def runArrayWarnings (warned : List String) :
    List String → List String × List String
  | [] => (warned, [])
  | k :: ks =>
    let res := arrayElementWarn warned k
    let rest := runArrayWarnings res.1 ks
    (rest.1, if res.2 then k :: rest.2 else rest.2)

/-! ### Concrete instances used by counterexamples and witnesses -/

/-- A midway header whose magic is wrong but whose compression flag is a
valid `CompressionType` member. -/
def badMidwayHeader : AssetHeader :=
  { magic := 0, file_version := 0, licensee_version := 0, exports_location := 0,
    shader_version := 0, engine_version := 0, midway_team_four_cc := MK11_FOUR_CC,
    midway_team_engine_version := 0, cook_version := 0, main_package := MAIN_PACKAGE,
    package_flags := 0, name_table := ⟨0, 0⟩, export_table := ⟨0, 0⟩,
    import_table := ⟨0, 0⟩, bulk_data_offset := 0, guid := [], compression_flag := 0 }

/-- A header with a nonzero `bulk_data_offset` (8) for the export
coverage counterexample. -/
def c3Header : AssetHeader :=
  { badMidwayHeader with magic := FILE_MAGIC, bulk_data_offset := 8 }

/-- A header whose `exports_location` is 4, for the export coverage
witness. -/
def c3WitnessHeader : AssetHeader :=
  { badMidwayHeader with magic := FILE_MAGIC, exports_location := 4 }

/-- A block declaring one 4-byte chunk and a total decompressed size of
16. -/
def c1Block : BlockHeader := ⟨0, 0, 0x20000, 4, 16⟩

/-- A byte stream holding one chunk header (compressed 4, decompressed
16) followed by 4 payload bytes. -/
def c1Stream : List Nat :=
  [4, 0, 0, 0, 0, 0, 0, 0, 16, 0, 0, 0, 0, 0, 0, 0, 9, 9, 9, 9]

/-- An Oodle primitive that reports success with only 3 output bytes
regardless of the expected size. -/
def c1Prim : List Nat → Nat → Int × List Nat := fun _ _ => (3, [7, 7, 7])

/-- An external entry whose four fields are zero (`compressed_offset =
decompressed_offset`, so it classifies as psf). -/
def c6Entry : ExternalTableEntry := ⟨0, 0, 0, 0⟩

/-- A single export whose `object_outer_class` reference points back at
itself (export index 0), forming a one-element cycle. -/
def c8Export : ExportTableEntry :=
  { object_class := 0, object_outer_class := 1, object_name := 0,
    object_name_suffix := 0, object_super := 0, object_flags := 0,
    object_guid := [], object_main_package := 0, unk_1 := 0, object_size := 0,
    object_offset := 0, unk_2 := 0, unk_3 := 0 }

/-- The cyclic export table. -/
def c8Exports : List ExportTableEntry := [c8Export]

/-- The empty import table for the cyclic example. -/
def c8Imports : List ImportTableEntry := []

/-! ## Helper lemmas -/

theorem length_toBytesLE (n v : Nat) : (toBytesLE n v).length = n := by
  induction n generalizing v with
  | zero => rfl
  | succ n ih => simp [toBytesLE, ih]

theorem lePackValue_toBytesLE (n v : Nat) (h : v < 256 ^ n) :
    lePackValue (toBytesLE n v) = v := by
  induction n generalizing v with
  | zero =>
    simp [toBytesLE, lePackValue]
    omega
  | succ n ih =>
    have hdiv : v / 256 < 256 ^ n := by
      rw [Nat.div_lt_iff_lt_mul (by norm_num)]
      calc v < 256 ^ (n + 1) := h
        _ = 256 ^ n * 256 := by ring
    simp only [toBytesLE, lePackValue, List.foldr_cons]
    have := ih (v / 256) hdiv
    simp only [lePackValue] at this
    rw [this]
    omega

theorem take_append_of_length_eq {α : Type} (l₁ l₂ : List α) (n : Nat)
    (h : l₁.length = n) : (l₁ ++ l₂).take n = l₁ := by
  subst h
  exact List.take_left l₁ l₂

theorem drop_append_of_length_eq {α : Type} (l₁ l₂ : List α) (n : Nat)
    (h : l₁.length = n) : (l₁ ++ l₂).drop n = l₂ := by
  subst h
  exact List.drop_left l₁ l₂

theorem takeWhile_append_zero (name : List Nat) (h : ∀ b ∈ name, b ≠ 0) :
    (name ++ [0]).takeWhile (fun b => b != 0) = name := by
  induction name with
  | nil => rfl
  | cons b bs ih =>
    have hb : b ≠ 0 := h b (List.mem_cons_self b bs)
    simp only [List.cons_append, List.takeWhile_cons]
    rw [if_pos (by simpa using hb)]
    rw [ih (fun x hx => h x (List.mem_cons_of_mem b hx))]

/-! ## Claim C10 -/

/-- C10: for every ASCII file name containing no NUL byte (and whose
length fits the u32 length prefix), building the midway file-name
section and parsing it with `parse_file_name` yields the original name
exactly: the `c_char`-array read strips at the first NUL, which is the
appended terminator. -/
theorem c10_filename_roundtrip (name : List Nat)
    (hNul : ∀ b ∈ name, b ≠ 0) (hAscii : ∀ b ∈ name, b < 128)
    (hLen : name.length + 1 < 2 ^ 32) :
    parseFileName (buildFilenameSection name) 0 = .ok (name, name.length + 5) := by
  have h256 : (256 : Nat) ^ 4 = 2 ^ 32 := by norm_num
  have hL4 : (toBytesLE 4 (name.length + 1)).length = 4 := length_toBytesLE 4 _
  have hdata : buildFilenameSection name =
      toBytesLE 4 (name.length + 1) ++ (name ++ [0]) := by
    simp [buildFilenameSection]
  have hlen : (buildFilenameSection name).length = name.length + 5 := by
    simp [buildFilenameSection, length_toBytesLE]
    omega
  have h1 : readBytes (buildFilenameSection name) 0 4 =
      .ok (toBytesLE 4 (name.length + 1), 4) := by
    unfold readBytes
    rw [if_pos (by omega)]
    rw [List.drop_zero, hdata, take_append_of_length_eq _ _ 4 hL4]
  have h2 : readUInt (buildFilenameSection name) 0 4 =
      .ok (name.length + 1, 4) := by
    unfold readUInt
    rw [h1]
    show Except.ok (lePackValue (toBytesLE 4 (name.length + 1)), 4) = _
    rw [lePackValue_toBytesLE 4 (name.length + 1) (by omega)]
  have h3 : readBytes (buildFilenameSection name) 4 (name.length + 1) =
      .ok (name ++ [0], name.length + 5) := by
    unfold readBytes
    rw [if_pos (by omega)]
    rw [hdata, drop_append_of_length_eq _ _ 4 hL4]
    have htake : (name ++ [0]).take (name.length + 1) = name ++ [0] := by
      have hl : (name ++ [0]).length = name.length + 1 := by simp
      rw [← hl, List.take_length]
    rw [htake]
    congr 2
    omega
  unfold parseFileName
  rw [h2]
  show (do
    let (raw, p2) ← readBytes (buildFilenameSection name) 4 (name.length + 1)
    Except.ok (raw.takeWhile (fun b => b != 0), p2) :
      Except Err (List Nat × Nat)) = _
  rw [h3]
  exact congrArg
    (fun l => (Except.ok (l, name.length + 5) : Except Err (List Nat × Nat)))
    (takeWhile_append_zero name hNul)

/-- C10 witness: the two-byte name `"MK"` round-trips. -/
theorem c10_filename_roundtrip_witness :
    parseFileName (buildFilenameSection [77, 75]) 0 = .ok ([77, 75], 7) :=
  c10_filename_roundtrip [77, 75] (by decide) (by decide) (by decide)

/-! ## Claim C7 -/

/-- C7: when the u64 size field of a property tag reads 0, the size is
treated as 4 exactly when the type tag is `BoolProperty`; every other
type tag fails with the zero-sized-property error. -/
theorem c7_zero_size_bool_only (t : PropType) (data : List Nat) (pos p2 : Nat)
    (hz : readUInt data pos 8 = .ok (0, p2)) :
    (readPropertySize t data pos = .ok (4, p2) ↔ t = .boolP) ∧
    (t ≠ .boolP → readPropertySize t data pos = .error .zeroSizedProperty) := by
  unfold readPropertySize fixPropertySize
  rw [hz]
  cases t
  case boolP => exact ⟨iff_of_true rfl rfl, fun h => absurd rfl h⟩
  all_goals
    exact ⟨iff_of_false (fun h => Except.noConfusion h)
      (fun h => PropType.noConfusion h), fun _ => rfl⟩

/-- C7 witness: on eight zero bytes, `StrProperty` fails while
`BoolProperty` gets size 4. -/
theorem c7_zero_size_bool_only_witness :
    readPropertySize .strP [0, 0, 0, 0, 0, 0, 0, 0] 0 = .error .zeroSizedProperty ∧
    readPropertySize .boolP [0, 0, 0, 0, 0, 0, 0, 0] 0 = .ok (4, 8) :=
  ⟨(c7_zero_size_bool_only .strP _ 0 8 (by rfl)).2 (by decide),
   (c7_zero_size_bool_only .boolP _ 0 8 (by rfl)).1.mpr rfl⟩

/-! ## Claim C4 -/

/-- C4: `resolve_object` maps 0 to the None sentinel, a positive `v` to
the export-table entry at index `v - 1`, and a negative `v` to the
import-table entry at index `-v - 1` (whenever the index is in range of
the referenced table). -/
theorem c4_resolve_reference_law {α β : Type} (imp : List α) (exp : List β) :
    (resolveObject 0 imp exp = .ok .noneEntry) ∧
    (∀ (v : Int) (e : β), 0 < v → exp.get? (v - 1).toNat = some e →
      resolveObject v imp exp = .ok (.exported e)) ∧
    (∀ (v : Int) (e : α), v < 0 → imp.get? (-v - 1).toNat = some e →
      resolveObject v imp exp = .ok (.imported e)) := by
  refine ⟨by simp [resolveObject], ?_, ?_⟩
  · intro v e hv he
    unfold resolveObject
    rw [if_neg (by omega), if_neg (by omega), he]
  · intro v e hv he
    unfold resolveObject
    rw [if_neg (by omega), if_pos hv]
    have : (-(v + 1)) = -v - 1 := by ring
    rw [this, he]

/-- C4 witness: over one-element tables, 0 resolves to the sentinel, 1
to export 0, and -1 to import 0. -/
theorem c4_resolve_reference_law_witness :
    (resolveObject 0 [10] ([20] : List Nat) = .ok .noneEntry) ∧
    (resolveObject 1 [10] ([20] : List Nat) = .ok (.exported 20)) ∧
    (resolveObject (-1) [10] ([20] : List Nat) = .ok (.imported 10)) :=
  ⟨(c4_resolve_reference_law [10] [20]).1,
   (c4_resolve_reference_law [10] [20]).2.1 1 20 (by decide) (by rfl),
   (c4_resolve_reference_law [10] [20]).2.2 (-1) 10 (by decide) (by rfl)⟩

/-! ## Claim C5 -/

/-- C5 counterexample: an entry with `compressed_offset = decompressed_offset
= NEG` and `compressed_size = 0` has exactly one of
`compressed_offset`/`compressed_size` equal to `NEG`, which the claim
calls fatal, yet the code classifies it as psf because the
`compressed_offset == decompressed_offset` branch is checked first. -/
theorem c5_mixed_neg_psf_counterexample :
    validateFiletableEntry ⟨0, 0, NEG, NEG⟩ = .ok .psf ∧
    (ExternalTableEntry.mk 0 0 NEG NEG).compressed_offset = NEG ∧
    (ExternalTableEntry.mk 0 0 NEG NEG).compressed_size ≠ NEG := by
  refine ⟨rfl, rfl, by decide⟩

/-- C5 amended: classification checks `compressed_offset =
decompressed_offset` first (psf, regardless of `NEG` values); `bulk`
holds exactly when the offsets differ and both `compressed_offset` and
`compressed_size` are `NEG`; every other shape — in particular exactly
one of them `NEG` while the offsets differ — is the fatal
`MalformedExternalEntry`. -/
theorem c5_amended_classification (e : ExternalTableEntry) :
    (validateFiletableEntry e = .ok .psf ↔
      e.compressed_offset = e.decompressed_offset) ∧
    (validateFiletableEntry e = .ok .bulk ↔
      (e.compressed_offset ≠ e.decompressed_offset ∧
       e.compressed_offset = NEG ∧ e.compressed_size = NEG)) ∧
    (validateFiletableEntry e = .error .malformedExternalEntry ↔
      (e.compressed_offset ≠ e.decompressed_offset ∧
       ¬ (e.compressed_offset = NEG ∧ e.compressed_size = NEG))) := by
  unfold validateFiletableEntry
  split_ifs with h1 h2 h3 <;> simp_all <;> omega

/-! ## Claim C2 -/

/-- C2 counterexample: a reconstructed image whose summary fails the
magic check does not abort the parse — `parse_summary` calls
`validate_file`, which merely returns `False`, and discards the result,
so the parse continues (`parse_summary` succeeds). -/
theorem c2_validate_ignored_counterexample :
    parseSummary badMidwayHeader 0 0 = .ok () ∧
    validateFile badMidwayHeader .noneC 0 0 = false ∧
    badMidwayHeader.magic ≠ FILE_MAGIC := by
  refine ⟨rfl, rfl, by decide⟩

/-- C2 amended: `validate_file` returns `true` exactly when all five
summary checks pass, but `parse_summary` discards that Boolean, so the
parse never aborts with an invalid-midway-header error (its only raising
step is the `CompressionType` conversion of the flag). -/
theorem c2_amended_validate_discarded :
    (∀ (h : AssetHeader) (pc pec : Nat),
        (compressionTypeOfFlag h.compression_flag).isSome →
        parseSummary h pc pec = .ok ()) ∧
    (∀ (h : AssetHeader) (cm : CompressionType) (pc pec : Nat),
        validateFile h cm pc pec = true ↔
          (h.magic = FILE_MAGIC ∧ h.midway_team_four_cc = MK11_FOUR_CC ∧
           h.main_package = MAIN_PACKAGE ∧ cm = .noneC ∧ pc = 0 ∧ pec = 0)) := by
  constructor
  · intro h pc pec hs
    unfold parseSummary
    rcases Option.isSome_iff_exists.mp hs with ⟨cm, hcm⟩
    rw [hcm]
  · intro h cm pc pec
    unfold validateFile
    split_ifs <;> simp_all

/-- C2 amended witness: the bad-magic header still parses. -/
theorem c2_amended_validate_discarded_witness :
    parseSummary badMidwayHeader 1 2 = .ok () :=
  c2_amended_validate_discarded.1 badMidwayHeader 1 2 (by decide)

/-! ## Claim C1 -/

/-- C1 counterexample: a block declaring `decompressed_size = 16` whose
single chunk decompresses to only 3 bytes is returned successfully with
the mismatched length — `decompress_block` performs no comparison with
the block's `decompressed_size`, and `OodleV5.decompress` truncates to
the primitive's reported length without error. -/
theorem c1_no_corrupt_block_counterexample :
    decompressBlock (oodleDecompress c1Prim) c1Block c1Stream 0 =
      .ok ([7, 7, 7], 20) ∧
    ([7, 7, 7] : List Nat).length ≠ c1Block.decompressed_size := by
  refine ⟨by rfl, by decide⟩

/-- C1 amended: `decompress_block` concatenates the per-chunk outputs
and returns them without consulting the block header's
`decompressed_size` at all (the result is invariant under changing that
field), and the Oodle adapter returns whatever prefix of the buffer the
primitive reports, erroring only on a non-positive status — so a length
mismatch is not detected. -/
theorem c1_amended_no_length_check :
    (∀ (comp : List Nat → Nat → Except Err (List Nat))
        (mg pd ck cs ds ds2 : Nat) (data : List Nat) (pos : Nat),
        decompressBlock comp ⟨mg, pd, ck, cs, ds⟩ data pos =
          decompressBlock comp ⟨mg, pd, ck, cs, ds2⟩ data pos) ∧
    (∀ (prim : List Nat → Nat → Int × List Nat) (chunk : List Nat) (sz : Nat),
        0 < (prim chunk sz).1 →
        oodleDecompress prim chunk sz =
          .ok ((prim chunk sz).2.take (prim chunk sz).1.toNat)) := by
  constructor
  · intro comp mg pd ck cs ds ds2 data pos
    rfl
  · intro prim chunk sz h
    unfold oodleDecompress
    rw [if_neg (by omega)]

/-- C1 amended witness: the short-output primitive yields its 3 reported
bytes for an expected size of 16. -/
theorem c1_amended_no_length_check_witness :
    oodleDecompress c1Prim [0] 16 =
      .ok ((c1Prim [0] 16).2.take (c1Prim [0] 16).1.toNat) :=
  c1_amended_no_length_check.2 c1Prim [0] 16 (by decide)

/-! ## Claim C6 -/

theorem validatePsfExtraGo_ok_iff (P : List ExternalTableEntry) :
    ∀ (Q : List PkgSubEntry) (idx : Nat),
    (∃ ws, validatePsfExtraGo idx P Q = .ok ws) ↔
    ((∀ pq ∈ P.zip Q, pq.1.compressed_offset = pq.2.compressed_offset) ∧
     (P.length = Q.length ∨ P.length = Q.length + 1)) := by
  induction P with
  | nil =>
    intro Q idx
    cases Q with
    | nil => simp [validatePsfExtraGo]
    | cons q qs => simp [validatePsfExtraGo]
  | cons p ps ih =>
    intro Q idx
    cases Q with
    | nil =>
      cases ps with
      | nil => simp [validatePsfExtraGo]
      | cons p2 ps2 => simp [validatePsfExtraGo]
    | cons q qs =>
      by_cases hco : p.compressed_offset = q.compressed_offset
      · simp only [validatePsfExtraGo]
        rw [if_neg (not_not_intro hco)]
        constructor
        · rintro ⟨ws, hws⟩
          cases h : validatePsfExtraGo (idx + 1) ps qs with
          | error e =>
            rw [h] at hws
            exact Except.noConfusion hws
          | ok ws0 =>
            have hRHS := (ih qs (idx + 1)).mp ⟨ws0, h⟩
            refine ⟨?_, ?_⟩
            · intro pq hpq
              rw [List.zip_cons_cons, List.mem_cons] at hpq
              rcases hpq with rfl | hmem
              · exact hco
              · exact hRHS.1 pq hmem
            · simp only [List.length_cons]
              omega
        · rintro ⟨hzip, hlen⟩
          have hlen2 : ps.length = qs.length ∨ ps.length = qs.length + 1 := by
            simp only [List.length_cons] at hlen
            omega
          have hzip2 : ∀ pq ∈ ps.zip qs,
              pq.1.compressed_offset = pq.2.compressed_offset := by
            intro pq hpq
            exact hzip pq (by rw [List.zip_cons_cons, List.mem_cons]; right; exact hpq)
          obtain ⟨ws0, h⟩ := (ih qs (idx + 1)).mpr ⟨hzip2, hlen2⟩
          refine ⟨if p.decompressed_offset ≠ q.decompressed_offset then idx :: ws0
                  else ws0, ?_⟩
          rw [h]
          rfl
      · simp only [validatePsfExtraGo]
        rw [if_pos hco]
        constructor
        · rintro ⟨ws, hws⟩
          exact Except.noConfusion hws
        · rintro ⟨hzip, _⟩
          exact absurd (hzip (p, q)
            (by rw [List.zip_cons_cons]; exact List.mem_cons_self _ _)) hco

/-- C6 counterexample: a flattened PSF list exactly one entry longer
than the flattened extra-package list passes the cross-check — `zip`
consumes the extra PSF entry while probing, so both trailing exhaustion
checks see empty iterators — although the claim says any length
mismatch is fatal. -/
theorem c6_one_extra_psf_counterexample :
    validatePsfWithExtra [[c6Entry]] [] = .ok [] ∧
    ([[c6Entry]] : List (List ExternalTableEntry)).flatten.length =
      ([] : List (List PkgSubEntry)).flatten.length + 1 :=
  ⟨rfl, rfl⟩

/-- C6 amended: every zipped pair must share `compressed_offset` (a
mismatch at position `idx` is fatal); a `decompressed_offset` mismatch
only records a warning index and the check continues; and the check
succeeds exactly when additionally the flattened PSF length equals the
flattened extra-package length or exceeds it by exactly one (the
one-extra-PSF-entry case is silently consumed by `zip`; any other
length mismatch is fatal). -/
theorem c6_amended_zip_check :
    (∀ (psfTables : List (List ExternalTableEntry))
        (packagesExtra : List (List PkgSubEntry)),
      (∃ ws, validatePsfWithExtra psfTables packagesExtra = .ok ws) ↔
      ((∀ pq ∈ psfTables.flatten.zip packagesExtra.flatten,
          pq.1.compressed_offset = pq.2.compressed_offset) ∧
       (psfTables.flatten.length = packagesExtra.flatten.length ∨
        psfTables.flatten.length = packagesExtra.flatten.length + 1))) ∧
    (∀ (idx : Nat) (p : ExternalTableEntry) ps (q : PkgSubEntry) qs,
      p.compressed_offset ≠ q.compressed_offset →
      validatePsfExtraGo idx (p :: ps) (q :: qs) =
        .error (.psfExtraCompressedMismatch idx)) ∧
    (∀ (idx : Nat) (p : ExternalTableEntry) ps (q : PkgSubEntry) qs ws,
      p.compressed_offset = q.compressed_offset →
      validatePsfExtraGo (idx + 1) ps qs = .ok ws →
      validatePsfExtraGo idx (p :: ps) (q :: qs) =
        .ok (if p.decompressed_offset ≠ q.decompressed_offset then idx :: ws
             else ws)) := by
  refine ⟨?_, ?_, ?_⟩
  · intro psfTables packagesExtra
    unfold validatePsfWithExtra
    exact validatePsfExtraGo_ok_iff psfTables.flatten packagesExtra.flatten 0
  · intro idx p ps q qs h
    simp only [validatePsfExtraGo]
    rw [if_pos h]
  · intro idx p ps q qs ws h hws
    simp only [validatePsfExtraGo]
    rw [if_neg (not_not_intro h), hws]
    rfl

/-- C6 amended witness: a pair with differing `compressed_offset` fails
fatally at its index, while a matching pair with differing
`decompressed_offset` merely records warning index 0. -/
theorem c6_amended_zip_check_witness :
    validatePsfExtraGo 0 [⟨0, 0, 0, 5⟩] [⟨1, 1, 9, 1⟩] =
      .error (.psfExtraCompressedMismatch 0) ∧
    validatePsfExtraGo 0 [⟨0, 0, 3, 5⟩] [⟨4, 1, 5, 1⟩] = .ok [0] :=
  ⟨c6_amended_zip_check.2.1 0 ⟨0, 0, 0, 5⟩ [] ⟨1, 1, 9, 1⟩ [] (by decide),
   (c6_amended_zip_check.2.2 0 ⟨0, 0, 3, 5⟩ [] ⟨4, 1, 5, 1⟩ [] [] (by decide)
     (by rfl)).trans (by rfl)⟩

/-! ## Claim C9 -/

theorem mem_arrayElementWarn_state (w : List String) (k x : String)
    (hx : x ∈ w) : x ∈ (arrayElementWarn w k).1 := by
  unfold arrayElementWarn
  split_ifs <;> simp_all

theorem mem_runArrayWarnings_state (ks : List String) :
    ∀ (w : List String) (x : String), x ∈ w → x ∈ (runArrayWarnings w ks).1 := by
  induction ks with
  | nil => intro w x hx; exact hx
  | cons k ks ih =>
    intro w x hx
    simp only [runArrayWarnings]
    exact ih _ x (mem_arrayElementWarn_state w k x hx)

theorem arrayElementWarn_rel (W0 w W : List String) (k : String)
    (hinv : ∀ x, x ∈ W ↔ (x ∈ w ∨ x ∈ W0)) :
    ((arrayElementWarn W k).2 =
      ((arrayElementWarn w k).2 && decide (¬ k ∈ W0))) ∧
    (∀ x, x ∈ (arrayElementWarn W k).1 ↔
      (x ∈ (arrayElementWarn w k).1 ∨ x ∈ W0)) := by
  unfold arrayElementWarn
  by_cases h1 : k = "mUnlockPagesSentForOnline"
  · simp [h1, hinv]
  by_cases h2 : k = "mUnlockedByDefault" ∨ k = "mUnlockedForDev"
  · simp [h1, h2, hinv]
  by_cases h3 : k ∈ knownArrayStructNames
  · simp [h1, h2, h3, hinv]
  by_cases h4 : k ∈ w
  · have h5 : k ∈ W := (hinv k).mpr (Or.inl h4)
    simp [h1, h2, h3, h4, h5, hinv]
  by_cases h6 : k ∈ W0
  · have h5 : k ∈ W := (hinv k).mpr (Or.inr h6)
    rw [if_neg h1, if_neg h2, if_neg h1, if_neg h2]
    rw [if_neg (by simp [h5]), if_pos (by exact ⟨h3, h4⟩)]
    refine ⟨by simp [h6], ?_⟩
    intro x
    simp only [List.mem_cons]
    constructor
    · intro hx; exact Or.imp_left Or.inr (hinv x |>.mp hx)
    · rintro (⟨rfl | hx⟩ | hx)
      · exact h5
      · exact (hinv x).mpr (Or.inl hx)
      · exact (hinv x).mpr (Or.inr hx)
  · have h5 : ¬ k ∈ W := fun hk => by
      rcases (hinv k).mp hk with h | h
      · exact h4 h
      · exact h6 h
    rw [if_neg h1, if_neg h2, if_neg h1, if_neg h2]
    rw [if_pos (by exact ⟨h3, h5⟩), if_pos (by exact ⟨h3, h4⟩)]
    refine ⟨by simp [h6], ?_⟩
    intro x
    simp only [List.mem_cons]
    constructor
    · rintro (rfl | hx)
      · exact Or.inl (Or.inl rfl)
      · exact Or.imp_left Or.inr (hinv x |>.mp hx)
    · rintro (⟨rfl | hx⟩ | hx)
      · exact Or.inl rfl
      · exact Or.inr ((hinv x).mpr (Or.inl hx))
      · exact Or.inr ((hinv x).mpr (Or.inr hx))

theorem runArrayWarnings_rel (W0 : List String) (ks : List String) :
    ∀ (w W : List String), (∀ x, x ∈ W ↔ (x ∈ w ∨ x ∈ W0)) →
    ((runArrayWarnings W ks).2 =
      (runArrayWarnings w ks).2.filter (fun k => decide (¬ k ∈ W0))) ∧
    (∀ x, x ∈ (runArrayWarnings W ks).1 ↔
      (x ∈ (runArrayWarnings w ks).1 ∨ x ∈ W0)) := by
  induction ks with
  | nil =>
    intro w W hinv
    exact ⟨rfl, hinv⟩
  | cons k ks ih =>
    intro w W hinv
    have hstep := arrayElementWarn_rel W0 w W k hinv
    have hrec := ih (arrayElementWarn w k).1 (arrayElementWarn W k).1 hstep.2
    simp only [runArrayWarnings]
    refine ⟨?_, hrec.2⟩
    rw [hstep.1, hrec.1]
    by_cases hb : (arrayElementWarn w k).2
    · by_cases hk : k ∈ W0
      · simp [hb, hk]
      · simp [hb, hk]
    · simp [hb]

/-- C9 counterexample: decoding a body containing the unknown array name
`"zzz"` twice in a row across two runs is not independent — the first
run adds `"zzz"` to the module-global `warned_classes`, so the second
run emits no warning, while a fresh run would warn. -/
theorem c9_shared_warned_counterexample :
    (runArrayWarnings (runArrayWarnings [] ["zzz"]).1 ["zzz"]).2 ≠
      (runArrayWarnings [] ["zzz"]).2 := by
  decide

/-- C9 amended: the per-name warned tracking (`warned_classes`) is a
module-level set shared by all decode runs in the process: a later run
emits exactly the warnings a fresh run would emit minus those whose
names the earlier run already placed in the set. -/
theorem c9_amended_process_wide_warned (w0 b1 b2 : List String) :
    (runArrayWarnings (runArrayWarnings w0 b1).1 b2).2 =
      ((runArrayWarnings w0 b2).2).filter
        (fun k => decide (¬ k ∈ (runArrayWarnings w0 b1).1)) := by
  have hsub : ∀ x, x ∈ w0 → x ∈ (runArrayWarnings w0 b1).1 :=
    fun x hx => mem_runArrayWarnings_state b1 w0 x hx
  have hinv : ∀ x, x ∈ (runArrayWarnings w0 b1).1 ↔
      (x ∈ w0 ∨ x ∈ (runArrayWarnings w0 b1).1) := by
    intro x
    constructor
    · exact Or.inr
    · rintro (hx | hx)
      · exact hsub x hx
      · exact hx
  exact (runArrayWarnings_rel (runArrayWarnings w0 b1).1 b2 w0
    (runArrayWarnings w0 b1).1 hinv).1

/-! ## Claim C3 -/

theorem validateExportsGo_mem_oob (start endE off sz : Nat) (name : String)
    (l : List (Nat × Nat × String)) :
    ∀ (st : Nat × Nat × Option String),
    (off, sz, name) ∈ l → ¬ (start ≤ off ∧ off < endE) →
    ExportErr.outOfBounds name off start endE ∈
      (validateExportsGo start endE st l).1 := by
  induction l with
  | nil =>
    intro st h
    simp at h
  | cons hd tl ih =>
    intro st hmem hbad
    obtain ⟨o2, s2, n2⟩ := hd
    obtain ⟨po, pe, pn⟩ := st
    rw [List.mem_cons] at hmem
    rcases hmem with heq | hmem
    · obtain ⟨rfl, rfl, rfl⟩ := Prod.mk.injEq .. ▸ heq
      simp only [validateExportsGo]
      rw [if_pos hbad]
      exact List.mem_cons_self _ _
    · simp only [validateExportsGo]
      by_cases h1 : ¬ (start ≤ o2 ∧ o2 < endE)
      · rw [if_pos h1]
        exact List.mem_cons_of_mem _ (ih _ hmem hbad)
      · rw [if_neg h1]
        by_cases h2 : o2 + s2 > endE
        · rw [if_pos h2]
          exact List.mem_cons_of_mem _ (ih _ hmem hbad)
        · rw [if_neg h2]
          exact List.mem_append_right _ (ih _ hmem hbad)

theorem validateExportsGo_mem_overext (start endE off sz : Nat) (name : String)
    (l : List (Nat × Nat × String)) :
    ∀ (st : Nat × Nat × Option String),
    (off, sz, name) ∈ l → (start ≤ off ∧ off < endE) → off + sz > endE →
    ExportErr.overExtent name sz off endE ∈
      (validateExportsGo start endE st l).1 := by
  induction l with
  | nil =>
    intro st h
    simp at h
  | cons hd tl ih =>
    intro st hmem hgood hover
    obtain ⟨o2, s2, n2⟩ := hd
    obtain ⟨po, pe, pn⟩ := st
    rw [List.mem_cons] at hmem
    rcases hmem with heq | hmem
    · obtain ⟨rfl, rfl, rfl⟩ := Prod.mk.injEq .. ▸ heq
      simp only [validateExportsGo]
      rw [if_neg (not_not_intro hgood), if_pos hover]
      exact List.mem_cons_self _ _
    · simp only [validateExportsGo]
      by_cases h1 : ¬ (start ≤ o2 ∧ o2 < endE)
      · rw [if_pos h1]
        exact List.mem_cons_of_mem _ (ih _ hmem hgood hover)
      · rw [if_neg h1]
        by_cases h2 : o2 + s2 > endE
        · rw [if_pos h2]
          exact List.mem_cons_of_mem _ (ih _ hmem hgood hover)
        · rw [if_neg h2]
          exact List.mem_append_right _ (ih _ hmem hgood hover)

theorem validateExports_ok_shape (hdr : AssetHeader) (mmSize : Nat)
    (exports : List (Nat × Nat × String)) (skipBulk : Bool)
    (bulkTables : List (List Nat)) (res : List ExportErr)
    (hok : validateExports hdr mmSize exports skipBulk bulkTables = .ok res) :
    ∃ tail, res =
      (validateExportsGo hdr.exports_location mmSize
        (hdr.exports_location, hdr.exports_location, none)
        (exports.insertionSort exportKeyLE)).1 ++ tail := by
  unfold validateExports at hok
  by_cases hemp : exports.isEmpty
  · rw [if_pos hemp] at hok
    obtain rfl : ([] : List ExportErr) = res := by
      simpa using hok
    have : exports = [] := List.isEmpty_iff.mp hemp
    subst this
    exact ⟨[], rfl⟩
  · rw [if_neg hemp] at hok
    set r := validateExportsGo hdr.exports_location mmSize
      (hdr.exports_location, hdr.exports_location, none)
      (exports.insertionSort exportKeyLE) with hr
    by_cases h1 : r.2.2.1 < mmSize
    · rw [if_pos h1] at hok
      by_cases h2 : ¬ skipBulk ∧ ¬ bulkTables.isEmpty
      · rw [if_pos h2] at hok
        cases bulkTables with
        | nil =>
          exact ⟨[], by simpa using hok.symm⟩
        | cons t0 rest =>
          dsimp only at hok
          cases ht0 : t0.head? with
          | none =>
            rw [ht0] at hok
            exact Except.noConfusion hok
          | some fb =>
            rw [ht0] at hok
            dsimp only at hok
            rw [← hr] at hok
            by_cases h3 : fb ≠ r.2.2.1
            · rw [if_pos h3] at hok
              exact ⟨[.endsEarlyBulk r.2.2.1 fb], by simpa using hok.symm⟩
            · rw [if_neg h3] at hok
              exact ⟨[], by simpa using hok.symm⟩
      · rw [if_neg h2] at hok
        exact ⟨[.endsEarly r.2.2.1 mmSize], by simpa using hok.symm⟩
    · rw [if_neg h1] at hok
      exact ⟨[], by simpa using hok.symm⟩

/-- C3 counterexample: with `bulk_data_offset = 8` set in the header and
a file size of 16, a single export covering `[0, 16)` extends past the
claimed end `bulk_data_offset` yet the validator reports nothing — the
code reads the nonexistent attribute `bulk_location` and always falls
back to the file size. -/
theorem c3_bulk_offset_ignored_counterexample :
    validateExports c3Header 16 [(0, 16, "E")] false [] = .ok [] ∧
    c3Header.bulk_data_offset = 8 ∧ 0 + 16 > 8 := by
  refine ⟨by rfl, by rfl, by decide⟩

/-- C3 amended: the valid export range always ends at the file size —
`bulk_data_offset` is never consulted (the result is invariant under
changing it) — and with that end every export whose offset lies outside
`[exports_location, file_size)`, or whose `offset + size` exceeds the
file size, is reported. -/
theorem c3_amended_export_bounds :
    (∀ (hdr : AssetHeader) (mmSize : Nat) (exports : List (Nat × Nat × String))
        (skipBulk : Bool) (bulkTables : List (List Nat)) (d : Nat),
        validateExports { hdr with bulk_data_offset := d } mmSize exports
            skipBulk bulkTables =
          validateExports hdr mmSize exports skipBulk bulkTables) ∧
    (∀ (hdr : AssetHeader) (mmSize : Nat) (exports : List (Nat × Nat × String))
        (skipBulk : Bool) (bulkTables : List (List Nat))
        (off sz : Nat) (name : String) (res : List ExportErr),
        validateExports hdr mmSize exports skipBulk bulkTables = .ok res →
        (off, sz, name) ∈ exports →
        (¬ (hdr.exports_location ≤ off ∧ off < mmSize) →
          ExportErr.outOfBounds name off hdr.exports_location mmSize ∈ res) ∧
        ((hdr.exports_location ≤ off ∧ off < mmSize) → off + sz > mmSize →
          ExportErr.overExtent name sz off mmSize ∈ res)) := by
  constructor
  · intro hdr mmSize exports skipBulk bulkTables d
    cases hdr
    rfl
  · intro hdr mmSize exports skipBulk bulkTables off sz name res hok hmem
    obtain ⟨tail, rfl⟩ := validateExports_ok_shape hdr mmSize exports skipBulk
      bulkTables res hok
    have hmem2 : (off, sz, name) ∈ exports.insertionSort exportKeyLE :=
      (List.perm_insertionSort exportKeyLE exports).mem_iff.mpr hmem
    constructor
    · intro hbad
      exact List.mem_append_left _
        (validateExportsGo_mem_oob _ _ off sz name _ _ hmem2 hbad)
    · intro hgood hover
      exact List.mem_append_left _
        (validateExportsGo_mem_overext _ _ off sz name _ _ hmem2 hgood hover)

/-- C3 amended witness: an export at offset 10 with `exports_location =
4` and file size 8 is reported out of bounds. -/
theorem c3_amended_export_bounds_witness :
    ExportErr.outOfBounds "X" 10 4 8 ∈
      [ExportErr.outOfBounds "X" 10 4 8, ExportErr.endsEarly 4 8] :=
  ((c3_amended_export_bounds.2 c3WitnessHeader 8 [(10, 1, "X")] true [] 10 1 "X"
      [ExportErr.outOfBounds "X" 10 4 8, ExportErr.endsEarly 4 8]
      (by rfl) (by simp)).1 (by decide))

/-! ## Claim C8 -/

theorem exc_bind_ok {α β : Type} (a : α) (f : α → Except Err β) :
    Except.bind (.ok a) f = f a := rfl

theorem exc_bind_error {α β : Type} (e : Err) (f : α → Except Err β) :
    Except.bind (.error e) f = .error e := rfl

theorem walkN_succ_def (exports : List ExportTableEntry)
    (imports : List ImportTableEntry) (k : Nat)
    (r : Option (Fin exports.length ⊕ Fin imports.length)) :
    walkN exports imports (k + 1) r =
      Except.bind (walkStep exports imports r) (walkN exports imports k) := rfl

theorem walkN_zero (exports : List ExportTableEntry)
    (imports : List ImportTableEntry)
    (r : Option (Fin exports.length ⊕ Fin imports.length)) :
    walkN exports imports 0 r = .ok r := rfl

theorem walkN_succ_back (exports : List ExportTableEntry)
    (imports : List ImportTableEntry) (k : Nat) :
    ∀ r, walkN exports imports (k + 1) r =
      Except.bind (walkN exports imports k r) (walkStep exports imports) := by
  induction k with
  | zero =>
    intro r
    rw [walkN_zero, exc_bind_ok, walkN_succ_def]
    cases h : walkStep exports imports r with
    | error e => rfl
    | ok r2 => rfl
  | succ k ih =>
    intro r
    cases h : walkStep exports imports r with
    | error e =>
      calc walkN exports imports (k + 1 + 1) r = Except.error e := by
            rw [walkN_succ_def, h, exc_bind_error]
        _ = Except.bind (walkN exports imports (k + 1) r)
              (walkStep exports imports) := by
            rw [walkN_succ_def, h, exc_bind_error, exc_bind_error]
    | ok r2 =>
      calc walkN exports imports (k + 1 + 1) r
          = walkN exports imports (k + 1) r2 := by
            rw [walkN_succ_def, h, exc_bind_ok]
        _ = Except.bind (walkN exports imports k r2)
              (walkStep exports imports) := ih r2
        _ = Except.bind (walkN exports imports (k + 1) r)
              (walkStep exports imports) := by
            rw [walkN_succ_def, h, exc_bind_ok]

theorem walkN_total (exports : List ExportTableEntry)
    (imports : List ImportTableEntry)
    (start : Option (Fin exports.length ⊕ Fin imports.length))
    (wf : ∀ r, ∃ r2, walkStep exports imports r = .ok r2) :
    ∀ k, ∃ r, walkN exports imports k start = .ok r := by
  intro k
  induction k with
  | zero => exact ⟨start, rfl⟩
  | succ k ih =>
    obtain ⟨r, hr⟩ := ih
    obtain ⟨r2, hr2⟩ := wf r
    exact ⟨r2, by rw [walkN_succ_back, hr, exc_bind_ok, hr2]⟩

theorem pathAux_terminates (exports : List ExportTableEntry)
    (imports : List ImportTableEntry)
    (nameE : Fin exports.length → String) (nameI : Fin imports.length → String) :
    ∀ (k : Nat) (r : Option (Fin exports.length ⊕ Fin imports.length))
      (acc : List String) (fuel : Nat),
    walkN exports imports k r = .ok none → k < fuel →
    ∃ names, pathAux exports imports nameE nameI fuel r acc = .ok (some names) := by
  intro k
  induction k with
  | zero =>
    intro r acc fuel h hlt
    have hr : r = none := by
      have := h
      rw [walkN] at this
      exact Except.ok.inj this
    subst hr
    obtain ⟨f2, rfl⟩ : ∃ f2, fuel = f2 + 1 := ⟨fuel - 1, by omega⟩
    exact ⟨acc.reverse, rfl⟩
  | succ k ih =>
    intro r acc fuel h hlt
    cases hr : walkStep exports imports r with
    | error e =>
      rw [walkN_succ_def, hr, exc_bind_error] at h
      exact Except.noConfusion h
    | ok r2 =>
      rw [walkN_succ_def, hr, exc_bind_ok] at h
      obtain ⟨f2, rfl⟩ : ∃ f2, fuel = f2 + 1 := ⟨fuel - 1, by omega⟩
      cases r with
      | none => exact ⟨acc.reverse, rfl⟩
      | some s =>
        cases s with
        | inl j =>
          obtain ⟨names, hn⟩ := ih r2 (nameE j :: acc) f2 h (by omega)
          refine ⟨names, ?_⟩
          rw [show pathAux exports imports nameE nameI (f2 + 1)
                (some (Sum.inl j)) acc =
              Except.bind (walkStep exports imports (some (Sum.inl j)))
                (fun r3 => pathAux exports imports nameE nameI f2 r3
                  (nameE j :: acc)) from rfl, hr, exc_bind_ok]
          exact hn
        | inr j =>
          obtain ⟨names, hn⟩ := ih r2 (nameI j :: acc) f2 h (by omega)
          refine ⟨names, ?_⟩
          rw [show pathAux exports imports nameE nameI (f2 + 1)
                (some (Sum.inr j)) acc =
              Except.bind (walkStep exports imports (some (Sum.inr j)))
                (fun r3 => pathAux exports imports nameE nameI f2 r3
                  (nameI j :: acc)) from rfl, hr, exc_bind_ok]
          exact hn

/-- C8 counterexample: a one-export table whose `object_outer_class`
points at itself makes the walk cycle — with fuel
`|imports| + |exports| + 1 = 2` the loop is still running (`ok none`),
so the path computation does not terminate within
`|imports| + |exports| = 1` steps. -/
theorem c8_cycle_counterexample :
    pathAux c8Exports c8Imports (fun _ => "A") (fun _ => "B")
      (c8Exports.length + c8Imports.length + 1)
      (some (Sum.inl ⟨0, by decide⟩)) [] = .ok none ∧
    c8Exports.length + c8Imports.length = 1 := by
  exact ⟨rfl, rfl⟩

/-- C8 amended: over tables whose resolved references all decode, the
walk from any start either terminates within `|imports| + |exports|`
steps, or it revisits a non-sentinel state within the first
`|imports| + |exports|` iterations — a cycle, against which the code has
no guard (the cyclic counterexample loops forever). -/
theorem c8_amended_walk_termination (exports : List ExportTableEntry)
    (imports : List ImportTableEntry)
    (nameE : Fin exports.length → String) (nameI : Fin imports.length → String)
    (start : Option (Fin exports.length ⊕ Fin imports.length))
    (wf : ∀ r, ∃ r2, walkStep exports imports r = .ok r2) :
    (∃ names, pathAux exports imports nameE nameI
        (exports.length + imports.length + 1) start [] = .ok (some names)) ∨
    (∃ k₁ k₂ : Nat, k₁ < k₂ ∧ k₂ ≤ exports.length + imports.length ∧
      walkN exports imports k₁ start = walkN exports imports k₂ start ∧
      walkN exports imports k₁ start ≠ .ok none) := by
  classical
  have htot := walkN_total exports imports start wf
  set N := exports.length + imports.length with hN
  let F : Nat → Option (Fin exports.length ⊕ Fin imports.length) :=
    fun k => Classical.choose (htot k)
  have hFs : ∀ k, walkN exports imports k start = .ok (F k) :=
    fun k => Classical.choose_spec (htot k)
  by_cases hinj : Function.Injective (fun k : Fin (N + 1) => F k.val)
  · have hcard : Fintype.card (Fin (N + 1)) =
        Fintype.card (Option (Fin exports.length ⊕ Fin imports.length)) := by
      simp [Fintype.card_option, Fintype.card_sum, Fintype.card_fin, hN]
    have hbij : Function.Bijective (fun k : Fin (N + 1) => F k.val) :=
      (Fintype.bijective_iff_injective_and_card _).mpr ⟨hinj, hcard⟩
    obtain ⟨k, hk⟩ := hbij.2 none
    left
    have hterm : walkN exports imports k.val start = .ok none := by
      rw [hFs k.val]
      exact congrArg Except.ok hk
    exact pathAux_terminates exports imports nameE nameI k.val start [] (N + 1)
      hterm k.isLt
  · rw [Function.not_injective_iff] at hinj
    obtain ⟨a, b, hab, hne⟩ := hinj
    have hab2 : F a.val = F b.val := hab
    by_cases hsent : F a.val = none
    · left
      have hterm : walkN exports imports a.val start = .ok none := by
        rw [hFs a.val]
        exact congrArg Except.ok hsent
      exact pathAux_terminates exports imports nameE nameI a.val start [] (N + 1)
        hterm a.isLt
    · right
      have hvne : a.val ≠ b.val := fun h => hne (Fin.ext h)
      have hble : b.val ≤ N := by omega
      have hale : a.val ≤ N := by omega
      rcases lt_or_gt_of_ne hvne with hlt | hlt
      · refine ⟨a.val, b.val, hlt, hble,
          by rw [hFs a.val, hFs b.val]; exact congrArg Except.ok hab2, ?_⟩
        rw [hFs a.val]
        intro hcon
        exact hsent (Except.ok.inj hcon)
      · refine ⟨b.val, a.val, hlt, hale,
          by rw [hFs b.val, hFs a.val]; exact congrArg Except.ok hab2.symm, ?_⟩
        rw [hFs b.val]
        intro hcon
        exact hsent (hab2.trans (Except.ok.inj hcon))

/-- C8 amended witness: over empty tables the walk from the sentinel
terminates immediately. -/
theorem c8_amended_walk_termination_witness :
    (∃ names, pathAux ([] : List ExportTableEntry) ([] : List ImportTableEntry)
        (fun _ => "") (fun _ => "") 1 none [] = .ok (some names)) ∨
    (∃ k₁ k₂ : Nat, k₁ < k₂ ∧ k₂ ≤ 0 ∧
      walkN ([] : List ExportTableEntry) ([] : List ImportTableEntry) k₁ none =
        walkN ([] : List ExportTableEntry) ([] : List ImportTableEntry) k₂ none ∧
      walkN ([] : List ExportTableEntry) ([] : List ImportTableEntry) k₁ none ≠
        .ok none) :=
  c8_amended_walk_termination [] [] (fun _ => "") (fun _ => "") none
    (fun r => match r with
      | none => ⟨none, rfl⟩
      | some (Sum.inl j) => j.elim0
      | some (Sum.inr j) => j.elim0)

end MK11
